import Mathlib

/-!
Shallow embedding of the agent-based simulation engine of this repository
(the `agent` package: `Sim`, `Sim.Tick`, `ComputePowerTable`,
`Sim.WinCount`, `poissonPMF`, `Sim.createMiner`, `Sim.rewardMiner`) and of
the illustrative multisig wallet actor state
(`MultiSigActorState.AmountLocked`, `MultiSigActorState._hasAvailable`).

External collaborators (the ledger VM, the concrete `MinerAgent`
implementation, the seeded `math/rand` generator) are modelled as abstract
state types together with a `World` record of deterministic oracle
functions, mirroring the interface boundary of the source.  Go `int64`
arithmetic of the multisig actor is modelled on `ℤ` with explicit
two's-complement reinterpretation (`% 2 ^ 64`) wherever the source
converts through `uint64`.  Error strings are abstracted to `ℕ` codes.
The `float64` arithmetic of the win-count sampler is idealised as exact
real arithmetic, and its unbounded `for` loop is given explicit fuel;
all sampler theorems that depend on termination carry a hypothesis that
the loop stops within the supplied fuel.
-/

/-- Go conversion `uint64(x)` from a signed 64-bit value: the unique
representative in `[0, 2^64)` congruent to `x` mod `2^64`. -/
def toUInt64Z (x : Int) : Int := x % 2 ^ 64

/-- Go conversion back to a signed 64-bit quantity (the
`abi.TokenAmount(u)` cast applied to a `uint64` product): reinterpret a
residue in `[0, 2^64)` in two's complement. -/
def toInt64Z (x : Int) : Int :=
  if x % 2 ^ 64 < 2 ^ 63 then x % 2 ^ 64 else x % 2 ^ 64 - 2 ^ 64

/-- State of the illustrative multisig wallet actor
(`MultiSigActorState` in `multisig_actor_state.go`).  The two pending-map
fields are external HAMT handles, modelled opaquely. -/
structure MultiSigActorState where
  InitialBalance : Int
  StartEpoch : Int
  UnlockDuration : Int
  AuthorizedParties : List Nat
  NumApprovalsThreshold : Int
  NextTxnID : Int
  PendingTxns : Nat
  PendingApprovals : Nat
deriving DecidableEq

/-- `MultiSigActorState.AmountLocked`: if the elapsed epoch count has
reached `UnlockDuration` nothing is locked; otherwise the locked
proportion is the Go (truncated) integer quotient
`(UnlockDuration - elapsedEpoch) / UnlockDuration` and the result is
`uint64(InitialBalance) * uint64(lockedProportion)` reinterpreted as a
signed amount, with the `uint64` multiplication wrapping mod `2^64`. -/
def MultiSigActorState.AmountLocked (st : MultiSigActorState)
    (elapsedEpoch : Int) : Int :=
  if elapsedEpoch ≥ st.UnlockDuration then 0
  else
    let lockedProportion := Int.tdiv (st.UnlockDuration - elapsedEpoch) st.UnlockDuration
    toInt64Z (toUInt64Z st.InitialBalance * toUInt64Z lockedProportion % 2 ^ 64)

/-- `MultiSigActorState.isAuthorizedParty`: linear scan of the authorized
party list. -/
def MultiSigActorState.isAuthorizedParty (st : MultiSigActorState)
    (party : Nat) : Bool :=
  st.AuthorizedParties.contains party

/-- `MultiSigActorState._hasAvailable`: reject a negative spend or a spend
above the current balance, then require that the remaining balance covers
the currently locked amount. -/
def MultiSigActorState.hasAvailable (st : MultiSigActorState)
    (currBalance amountToSpend : Int) (currEpoch : Int) : Bool :=
  if amountToSpend < 0 ∨ currBalance < amountToSpend then false
  else if currBalance - amountToSpend < st.AmountLocked (currEpoch - st.StartEpoch) then false
  else true

/-- The `for rhs > h` loop of `Sim.WinCount`, generic over the ordered
field carrying the probability masses: starting from win count
`winCount` and running survival value `rhs`, repeatedly increment the
count and subtract the next probability mass while `rhs > h`.  The Go
loop is unbounded; `fuel` bounds the recursion, and the fuel-exhaustion
case (which real executions never reach once the survival value has
dropped to `h`) returns the count reached so far. -/
def winCountAux {α : Type} [LinearOrderedField α] (pmf : Nat → α) (h : α) :
    Nat → Nat → α → Nat
  | 0, winCount, _ => winCount
  | fuel + 1, winCount, rhs =>
    if rhs > h then winCountAux pmf h fuel (winCount + 1) (rhs - pmf (winCount + 1))
    else winCount

/-- `poissonPMF`: the Poisson probability mass
`exp(-λ) · λ^k / k!` (the source evaluates `k!` by an iteratively
accumulated float factorial; here `k!` is exact). -/
noncomputable def poissonPMF (lambda : ℝ) (k : Nat) : ℝ :=
  Real.exp (-lambda) * lambda ^ k / (Nat.factorial k : ℝ)

/-- Survival value maintained by the `Sim.WinCount` loop after scanning
counts `0..k`: `1 - Σ_{i ≤ k} pmf i`, i.e. `P(X > k)` when `pmf` is a
probability mass function. -/
def survivalOf {α : Type} [LinearOrderedField α] (pmf : Nat → α) (k : Nat) : α :=
  1 - ∑ i in Finset.range (k + 1), pmf i

/-- Poisson survival probability `P(X > k)` for `X ~ Poisson(lambda)`. -/
noncomputable def poissonSurvival (lambda : ℝ) (k : Nat) : ℝ :=
  survivalOf (poissonPMF lambda) k

/-- The rate `λ = (minerPower / totalPower) * 5` computed exactly by
`Sim.WinCount` with `big.Rat` before conversion to a float (the
conversion is exact in the cases proved below). -/
noncomputable def lambdaOf (minerPower totalPower : Int) : ℝ :=
  ((minerPower : ℝ) / (totalPower : ℝ)) * 5

/-- `Sim.WinCount` as a function of the drawn uniform value `h`: start
from win count `0` and survival value `1 - poissonPMF lambda 0`, then run
the subtraction loop. -/
noncomputable def WinCount (fuel : Nat) (lambda h : ℝ) : Nat :=
  winCountAux (poissonPMF lambda) h fuel 0 (1 - poissonPMF lambda 0)

/-- Actor addresses (`address.Address`), abstracted to `ℕ`. -/
abbrev Addr := Nat

/-- `exitcode.Ok`. -/
def okCode : Int := 0

/-- Builtin singleton addresses (`builtin.SystemActorAddr` etc.). -/
def systemActorAddr : Addr := 0

def rewardActorAddr : Addr := 2

def cronActorAddr : Addr := 3

def storagePowerActorAddr : Addr := 4

/-- `builtin.MethodsPower.CreateMiner`. -/
def createMinerMethod : Nat := 2

/-- `builtin.MethodsReward.AwardBlockReward`. -/
def awardBlockRewardMethod : Nat := 2

/-- `builtin.MethodsCron.EpochTick`. -/
def epochTickMethod : Nat := 2

/-- `abi.RegisteredSealProof_StackedDrg32GiBV1_1`. -/
def stackedDrg32GiBV1_1 : Nat := 8

/-- Typed message parameters that appear in the engine source:
`power.CreateMinerParams`, `reward.AwardBlockRewardParams`, `nil` for the
cron tick, and opaque agent-produced parameters. -/
inductive MsgParams where
  | createMiner (owner worker : Addr) (sealProofType : Nat)
  | awardBlockReward (miner : Addr) (penalty gasReward winCount : Int)
  | nilParams
  | other (data : Nat)
deriving DecidableEq

/-- Return values that appear in the engine source:
`power.CreateMinerReturn`, plus opaque returns. -/
inductive MsgRet where
  | createMinerRet (idAddress robustAddress : Addr)
  | nilRet
  | otherRet (data : Nat)
deriving DecidableEq

/-- `MinerAgentConfig` (defined in the miner-agent collaborator; the
fields set by `Sim.Tick` are modelled). -/
structure MinerAgentConfig where
  precommitRate : Rat
  proofType : Nat
  startingBalance : Int
deriving DecidableEq

/-- A message's completion callback.  The only callback constructed by
the engine source is the create-miner closure of `Sim.createMiner`
(carrying its `MinerAgentConfig`); callbacks attached by agent
collaborators are opaque tags.  Per the agent contract, collaborator
callbacks may fail but hold no reference into the engine's agent or
account lists, so they are modelled as not editing them. -/
inductive Handler where
  | createMinerH (cfg : MinerAgentConfig)
  | external (tag : Nat)
deriving DecidableEq

/-- The engine's `message` type. -/
structure Msg where
  From : Addr
  To : Addr
  Value : Int
  Method : Nat
  Params : MsgParams
  ReturnHandler : Option Handler
deriving DecidableEq

/-- A message as produced by an agent collaborator: like `Msg`, but its
callback (if any) is necessarily opaque. -/
structure AgentMsg where
  From : Addr
  To : Addr
  Value : Int
  Method : Nat
  Params : MsgParams
  ReturnHandler : Option Nat
deriving DecidableEq

/-- Inclusion of agent-produced messages into the engine message type. -/
def AgentMsg.toMsg (am : AgentMsg) : Msg :=
  ⟨am.From, am.To, am.Value, am.Method, am.Params, am.ReturnHandler.map Handler.external⟩

/-- Phase tag recorded (as ghost instrumentation) for every
`ApplyMessage` invocation of a tick: the shuffled block-message batch,
the reward distributions, or the final cron call. -/
inductive Phase where
  | batch
  | reward
  | cron
deriving DecidableEq

/-- One `ApplyMessage` invocation in a tick's trace. -/
structure TraceEntry where
  phase : Phase
  msg : Msg
deriving DecidableEq

/-- The part of `power.Claim` read by the engine. -/
structure Claim where
  qualityAdjPower : Int
deriving DecidableEq

/-- The part of `reward.State` read by the engine. -/
structure RewardState where
  thisEpochReward : Int
deriving DecidableEq

/-- The part of `power.State` read directly by the engine. -/
structure PowerState where
  totalQualityAdjPower : Int
deriving DecidableEq

/-- `minerPowerTable`. -/
structure MinerPowerTable where
  addr : Addr
  qaPower : Int
deriving DecidableEq

/-- `powerTable`. -/
structure PowerTable where
  blockReward : Int
  totalQAPower : Int
  minerPower : List MinerPowerTable
deriving DecidableEq

/-- `SimConfig`.  The `float32` creation probability is modelled on `ℚ`. -/
structure SimConfig where
  accountCount : Int
  accountInitialBalance : Int
  seed : Int
  createMinerProbability : Rat
deriving DecidableEq

/-- The error taxonomy of a tick.  Go error strings are abstracted to
`ℕ` codes; the execution error carries the non-success exit code, the
failing message and the ledger log, exactly the data the source formats
into its error. -/
inductive SimError where
  | stateReadError (e : Nat)
  | agentError (e : Nat)
  | execError (code : Int) (msg : Msg) (log : List Nat)
  | handlerError (e : Nat)
  | rewardError (code : Int) (log : List Nat)
  | cronError (code : Int) (log : List Nat)
  | epochAdvanceError (e : Nat)
deriving DecidableEq

/-- Deterministic oracles for the engine's external collaborators, over
abstract types `V` (the ledger VM handle), `A` (an agent), `R` (the
`math/rand` generator state) and `S` (a call-statistics snapshot):
the VM interface (`ApplyMessage`, `GetLogs`, `GetCallStats`, `GetEpoch`,
`WithEpoch`, typed state reads and power-claim queries), the agent
contract (`Agent.Tick`, the `*MinerAgent` type test and its `IDAddress`,
`NewMinerAgent`), opaque agent callbacks, the generator primitives
(`Float32`, `Float64`, and the per-index draw of `rand.Shuffle`), the
float-valued win-count sampler as a function of the drawn uniform (its
arithmetic is verified separately on `WinCount` above), and the
constructor collaborators of `NewSim`. -/
structure World (V A R S : Type) where
  applyMessage : V → Addr → Addr → Int → Nat → MsgParams → V × MsgRet × Int
  getLogs : V → List Nat
  getCallStats : V → S
  getEpoch : V → Int
  withEpoch : V → Int → Except Nat V
  getRewardState : V → Except Nat RewardState
  getPowerState : V → Except Nat PowerState
  getClaim : V → Addr → Except Nat (Option Claim)
  minerNominalPowerMeetsConsensusMinimum : V → Addr → Except Nat Bool
  agentTick : A → V → Except Nat (List AgentMsg)
  agentIsMiner : A → Bool
  agentIdAddress : A → Addr
  newMinerAgent : Addr → Addr → Addr → Addr → MinerAgentConfig → A
  extHandler : Nat → V → Msg → MsgRet → Except Nat Unit
  float32 : R → Rat × R
  float64 : R → Rat × R
  intn : R → Nat → Nat × R
  winCountFn : Int → Int → Rat → Nat
  newVM : V
  createAccounts : SimConfig → List Addr
  seedRnd : Int → R
  emptyStats : S

/-- `Sim`: the engine's run state. -/
structure Sim (V A R S : Type) where
  config : SimConfig
  accounts : List Addr
  agents : List A
  v : V
  rnd : R
  statsByMethod : S

variable {V A R S : Type}

/-- `NewSim`: fresh VM with singletons, funded accounts, no agents, and
the generator seeded from `config.Seed`. -/
def NewSim (w : World V A R S) (config : SimConfig) : Sim V A R S :=
  { config := config
    accounts := w.createAccounts config
    agents := []
    v := w.newVM
    rnd := w.seedRnd config.seed
    statsByMethod := w.emptyStats }

/-- The agent scan of `ComputePowerTable`: for every `*MinerAgent`, look
up its power claim; if present and the miner's nominal power meets the
consensus minimum, record `(IDAddress, QualityAdjPower)`, in agent-list
order. -/
def computePTAgents (w : World V A R S) (v : V) :
    List A → Except Nat (List MinerPowerTable)
  | [] => Except.ok []
  | a :: rest =>
    if w.agentIsMiner a then
      match w.getClaim v (w.agentIdAddress a) with
      | Except.error e => Except.error e
      | Except.ok none => computePTAgents w v rest
      | Except.ok (some claim) =>
        match w.minerNominalPowerMeetsConsensusMinimum v (w.agentIdAddress a) with
        | Except.error e => Except.error e
        | Except.ok false => computePTAgents w v rest
        | Except.ok true =>
          match computePTAgents w v rest with
          | Except.error e => Except.error e
          | Except.ok tail =>
            Except.ok (MinerPowerTable.mk (w.agentIdAddress a) claim.qualityAdjPower :: tail)
    else computePTAgents w v rest

/-- `ComputePowerTable`: current epoch reward, total quality-adjusted
power, and the eligible miner entries. -/
def ComputePowerTable (w : World V A R S) (v : V) (agents : List A) :
    Except Nat PowerTable :=
  match w.getRewardState v with
  | Except.error e => Except.error e
  | Except.ok rwst =>
    match w.getPowerState v with
    | Except.error e => Except.error e
    | Except.ok st =>
      match computePTAgents w v agents with
      | Except.error e => Except.error e
      | Except.ok mps =>
        Except.ok { blockReward := rwst.thisEpochReward
                    totalQAPower := st.totalQualityAdjPower
                    minerPower := mps }

/-- The agent message-production pass of `Sim.Tick`: call `Tick` on every
agent in list order, concatenating the returned messages; any agent error
propagates immediately. -/
def collectMessages (w : World V A R S) (v : V) :
    List A → Except Nat (List Msg)
  | [] => Except.ok []
  | a :: rest =>
    match w.agentTick a v with
    | Except.error e => Except.error e
    | Except.ok msgs =>
      match collectMessages w v rest with
      | Except.error e => Except.error e
      | Except.ok tail => Except.ok (msgs.map AgentMsg.toMsg ++ tail)

/-- `Sim.createMiner`: the create-miner message, owner-funded with the
configured account initial balance, carrying the create-miner callback. -/
def Sim.createMiner (s : Sim V A R S) (owner : Addr) (cfg : MinerAgentConfig) : Msg :=
  { From := owner
    To := storagePowerActorAddr
    Value := s.config.accountInitialBalance
    Method := createMinerMethod
    Params := MsgParams.createMiner owner owner cfg.proofType
    ReturnHandler := some (Handler.createMinerH cfg) }

/-- The miner-creation step of `Sim.Tick`: when the agent set is smaller
than the account set, draw one `Float32`; when the draw is below the
configured creation probability, append one create-miner message for the
account at index `len(Agents)` (Go short-circuit evaluation: the draw
happens only when the size test passes). -/
def addMinerMessage (w : World V A R S) (s : Sim V A R S) (msgs : List Msg) :
    List Msg × R :=
  if s.agents.length < s.accounts.length then
    if (w.float32 s.rnd).1 < s.config.createMinerProbability then
      (msgs ++ [s.createMiner (s.accounts.getD s.agents.length 0)
        { precommitRate := 5 / 2
          proofType := stackedDrg32GiBV1_1
          startingBalance := s.config.accountInitialBalance }], (w.float32 s.rnd).2)
    else (msgs, (w.float32 s.rnd).2)
  else (msgs, s.rnd)

/-- One swap of `rand.Shuffle`'s swap callback (out-of-range indices
leave the list unchanged; the generator never produces them). -/
def swapList {α : Type} (l : List α) (i j : Nat) : List α :=
  match l[i]?, l[j]? with
  | some x, some y => (l.set i y).set j x
  | _, _ => l

/-- The Fisher–Yates loop of `rand.Shuffle`: for `i` from `n-1` down to
`1`, draw `j` uniform in `[0, i+1)` and swap positions `i` and `j`. -/
def shuffleAux {α : Type} (intn : R → Nat → Nat × R) :
    Nat → List α → R → List α × R
  | 0, l, r => (l, r)
  | i + 1, l, r =>
    shuffleAux intn i (swapList l (i + 1) (intn r (i + 2)).1) (intn r (i + 2)).2

/-- `s.rnd.Shuffle(len(blockMessages), swap)`. -/
def rndShuffle {α : Type} (intn : R → Nat → Nat × R) (l : List α) (r : R) :
    List α × R :=
  shuffleAux intn (l.length - 1) l r

/-- `ApplyMessage` on a `Msg` record. -/
def applyMsgV (w : World V A R S) (v : V) (m : Msg) : V × MsgRet × Int :=
  w.applyMessage v m.From m.To m.Value m.Method m.Params

/-- Running a message's completion callback.  The create-miner callback
checks the return type, instantiates a miner agent from the returned
identities and the message parameters, and appends it to the agent set;
opaque collaborator callbacks may fail but leave the agent set alone. -/
def runHandler (w : World V A R S) (hd : Handler) (v : V) (m : Msg)
    (ret : MsgRet) (ags : List A) : Except Nat (List A) :=
  match hd with
  | Handler.createMinerH cfg =>
    match ret with
    | MsgRet.createMinerRet idAddress robustAddress =>
      match m.Params with
      | MsgParams.createMiner owner worker _ =>
        Except.ok (ags ++ [w.newMinerAgent owner worker idAddress robustAddress cfg])
      | _ => Except.error 101
    | _ => Except.error 100
  | Handler.external tag =>
    match w.extHandler tag v m ret with
    | Except.ok _ => Except.ok ags
    | Except.error e => Except.error e

/-- The batch application loop of `Sim.Tick`: apply each message in
order; a non-`Ok` exit code aborts with an execution error carrying the
code, the message and the ledger log; otherwise run the callback (a
callback error also aborts).  Returns the VM and agent set reached, the
trace of `ApplyMessage` invocations, and the error if any. -/
def applyLoop (w : World V A R S) :
    List Msg → V → List A → V × List A × List TraceEntry × Option SimError
  | [], v, ags => (v, ags, [], none)
  | m :: rest, v, ags =>
    if (applyMsgV w v m).2.2 = okCode then
      match m.ReturnHandler with
      | none =>
        match applyLoop w rest (applyMsgV w v m).1 ags with
        | (v2, ags2, tr, er) => (v2, ags2, TraceEntry.mk Phase.batch m :: tr, er)
      | some hd =>
        match runHandler w hd (applyMsgV w v m).1 m (applyMsgV w v m).2.1 ags with
        | Except.ok ags' =>
          match applyLoop w rest (applyMsgV w v m).1 ags' with
          | (v2, ags2, tr, er) => (v2, ags2, TraceEntry.mk Phase.batch m :: tr, er)
        | Except.error e =>
          ((applyMsgV w v m).1, ags, [TraceEntry.mk Phase.batch m],
            some (SimError.handlerError e))
    else
      ((applyMsgV w v m).1, ags, [TraceEntry.mk Phase.batch m],
        some (SimError.execError (applyMsgV w v m).2.2 m (w.getLogs (applyMsgV w v m).1)))

/-- Whether every message of the list applies with exit code `Ok` and a
succeeding callback, applied in sequence. -/
def batchOk (w : World V A R S) : V → List A → List Msg → Bool
  | _, _, [] => true
  | v, ags, m :: rest =>
    if (applyMsgV w v m).2.2 = okCode then
      match m.ReturnHandler with
      | none => batchOk w (applyMsgV w v m).1 ags rest
      | some hd =>
        match runHandler w hd (applyMsgV w v m).1 m (applyMsgV w v m).2.1 ags with
        | Except.ok ags' => batchOk w (applyMsgV w v m).1 ags' rest
        | Except.error _ => false
    else false

/-- The VM and agent set reached by applying a batch along its success
path. -/
def execBatch (w : World V A R S) : V → List A → List Msg → V × List A
  | v, ags, [] => (v, ags)
  | v, ags, m :: rest =>
    if (applyMsgV w v m).2.2 = okCode then
      match m.ReturnHandler with
      | none => execBatch w (applyMsgV w v m).1 ags rest
      | some hd =>
        match runHandler w hd (applyMsgV w v m).1 m (applyMsgV w v m).2.1 ags with
        | Except.ok ags' => execBatch w (applyMsgV w v m).1 ags' rest
        | Except.error _ => ((applyMsgV w v m).1, ags)
    else ((applyMsgV w v m).1, ags)

/-- The reward message submitted by `Sim.rewardMiner`:
`AwardBlockReward` from the system actor to the reward actor with zero
value, zero penalty and gas reward, and the drawn win count. -/
def rewardMsgFor (addr : Addr) (wins : Nat) : Msg :=
  { From := systemActorAddr
    To := rewardActorAddr
    Value := 0
    Method := awardBlockRewardMethod
    Params := MsgParams.awardBlockReward addr 0 0 (wins : Int)
    ReturnHandler := none }

/-- `Sim.rewardMiner`: no-op for `wins < 1`; otherwise submit the reward
message, any non-`Ok` code being fatal. -/
def rewardMiner (w : World V A R S) (v : V) (addr : Addr) (wins : Nat) :
    V × List TraceEntry × Option SimError :=
  if wins < 1 then (v, [], none)
  else if (applyMsgV w v (rewardMsgFor addr wins)).2.2 = okCode then
    ((applyMsgV w v (rewardMsgFor addr wins)).1,
      [TraceEntry.mk Phase.reward (rewardMsgFor addr wins)], none)
  else
    ((applyMsgV w v (rewardMsgFor addr wins)).1,
      [TraceEntry.mk Phase.reward (rewardMsgFor addr wins)],
      some (SimError.rewardError (applyMsgV w v (rewardMsgFor addr wins)).2.2
        (w.getLogs (applyMsgV w v (rewardMsgFor addr wins)).1)))

/-- The reward pass of `Sim.Tick`: for each pre-tick power-table entry,
when the snapshot's total quality-adjusted power is positive, draw one
`Float64` and the corresponding win count, and reward the miner; a reward
failure aborts. -/
def rewardLoop (w : World V A R S) :
    List MinerPowerTable → Int → V → R → V × R × List TraceEntry × Option SimError
  | [], _, v, r => (v, r, [], none)
  | mp :: rest, totalQA, v, r =>
    if 0 < totalQA then
      match rewardMiner w v mp.addr (w.winCountFn mp.qaPower totalQA (w.float64 r).1) with
      | (v', tr, some e) => (v', (w.float64 r).2, tr, some e)
      | (v', tr, none) =>
        match rewardLoop w rest totalQA v' (w.float64 r).2 with
        | (v2, r2, tr2, er) => (v2, r2, tr ++ tr2, er)
    else rewardLoop w rest totalQA v r

/-- The end-of-epoch cron message. -/
def cronMsg : Msg :=
  { From := systemActorAddr
    To := cronActorAddr
    Value := 0
    Method := epochTickMethod
    Params := MsgParams.nilParams
    ReturnHandler := none }

/-- The tail of `Sim.Tick` after the batch has been shuffled: run the
batch, then the rewards keyed by the pre-tick power table, then cron,
then snapshot call statistics and advance the epoch. -/
def tickRun (w : World V A R S) (s : Sim V A R S) (pt : PowerTable)
    (shuffled : List Msg) (rnd2 : R) : Sim V A R S × List TraceEntry × Option SimError :=
  match applyLoop w shuffled s.v s.agents with
  | (v1, ags1, tr1, some e) => ({ s with v := v1, agents := ags1, rnd := rnd2 }, tr1, some e)
  | (v1, ags1, tr1, none) =>
    match rewardLoop w pt.minerPower pt.totalQAPower v1 rnd2 with
    | (v2, rnd3, tr2, some e) =>
      ({ s with v := v2, agents := ags1, rnd := rnd3 }, tr1 ++ tr2, some e)
    | (v2, rnd3, tr2, none) =>
      if (applyMsgV w v2 cronMsg).2.2 = okCode then
        match w.withEpoch (applyMsgV w v2 cronMsg).1
            (w.getEpoch (applyMsgV w v2 cronMsg).1 + 1) with
        | Except.ok v4 =>
          ({ s with
              v := v4
              agents := ags1
              rnd := rnd3
              statsByMethod := w.getCallStats (applyMsgV w v2 cronMsg).1 },
            tr1 ++ tr2 ++ [TraceEntry.mk Phase.cron cronMsg], none)
        | Except.error e =>
          ({ s with
              v := (applyMsgV w v2 cronMsg).1
              agents := ags1
              rnd := rnd3
              statsByMethod := w.getCallStats (applyMsgV w v2 cronMsg).1 },
            tr1 ++ tr2 ++ [TraceEntry.mk Phase.cron cronMsg],
            some (SimError.epochAdvanceError e))
      else
        ({ s with v := (applyMsgV w v2 cronMsg).1, agents := ags1, rnd := rnd3 },
          tr1 ++ tr2 ++ [TraceEntry.mk Phase.cron cronMsg],
          some (SimError.cronError (applyMsgV w v2 cronMsg).2.2
            (w.getLogs (applyMsgV w v2 cronMsg).1)))

/-- `Sim.Tick`: one epoch.  Returns the engine state reached (the source
mutates the receiver in place; the returned state reflects exactly those
mutations), the ghost trace of `ApplyMessage` invocations, and the error
aborting the tick, if any. -/
def Sim.Tick (w : World V A R S) (s : Sim V A R S) :
    Sim V A R S × List TraceEntry × Option SimError :=
  match ComputePowerTable w s.v s.agents with
  | Except.error e => (s, [], some (SimError.stateReadError e))
  | Except.ok pt =>
    match collectMessages w s.v s.agents with
    | Except.error e => (s, [], some (SimError.agentError e))
    | Except.ok agentMsgs =>
      tickRun w s pt
        (rndShuffle w.intn (addMinerMessage w s agentMsgs).1
          (addMinerMessage w s agentMsgs).2).1
        (rndShuffle w.intn (addMinerMessage w s agentMsgs).1
          (addMinerMessage w s agentMsgs).2).2

/-- Run `n` consecutive ticks, collecting each tick's trace; an error
stops the run. -/
def runSim (w : World V A R S) : Nat → Sim V A R S →
    Sim V A R S × List (List TraceEntry) × Option SimError
  | 0, s => (s, [], none)
  | n + 1, s =>
    match Sim.Tick w s with
    | (s', tr, some e) => (s', [tr], some e)
    | (s', tr, none) =>
      match runSim w n s' with
      | (s2, trs, er) => (s2, tr :: trs, er)

/-- Whether a message carries the create-miner callback (only the
engine's own miner-creation message does). -/
def isCreateMinerMsg (m : Msg) : Bool :=
  match m.ReturnHandler with
  | some (Handler.createMinerH _) => true
  | _ => false

/-- Number of agents a callback may append: one for the create-miner
callback, none otherwise. -/
def handlerDelta : Handler → Nat
  | Handler.createMinerH _ => 1
  | Handler.external _ => 0

/-- A concrete world over `ℕ` states in which every collaborator call
succeeds, used to evaluate the engine on closed inputs. -/
def trivWorld : World Nat Nat Nat Nat :=
  { applyMessage := fun v _ _ _ _ _ => (v, MsgRet.nilRet, 0)
    getLogs := fun _ => []
    getCallStats := fun _ => 0
    getEpoch := fun _ => 0
    withEpoch := fun v _ => Except.ok v
    getRewardState := fun _ => Except.ok ⟨0⟩
    getPowerState := fun _ => Except.ok ⟨0⟩
    getClaim := fun _ _ => Except.ok none
    minerNominalPowerMeetsConsensusMinimum := fun _ _ => Except.ok true
    agentTick := fun _ _ => Except.ok []
    agentIsMiner := fun _ => false
    agentIdAddress := fun a => a
    newMinerAgent := fun _ _ i _ _ => i
    extHandler := fun _ _ _ _ => Except.ok ()
    float32 := fun r => (0, r + 1)
    float64 := fun r => (0, r + 1)
    intn := fun r _ => (0, r + 1)
    winCountFn := fun _ _ _ => 1
    newVM := 0
    createAccounts := fun _ => []
    seedRnd := fun _ => 0
    emptyStats := 0 }

/-- A concrete empty engine state. -/
def simEx : Sim Nat Nat Nat Nat :=
  { config := ⟨0, 0, 0, 0⟩, accounts := [], agents := [], v := 0, rnd := 0,
    statsByMethod := 0 }

/-- `trivWorld` with a failing agent. -/
def agentErrWorld : World Nat Nat Nat Nat :=
  { trivWorld with agentTick := fun _ _ => Except.error 7 }

/-- An engine state with one agent. -/
def simOneAgent : Sim Nat Nat Nat Nat :=
  { simEx with agents := [0] }

/-- `trivWorld` with one eligible miner: the power state reports positive
total power and every agent is a miner with a claim of power `1`. -/
def rewardWorld : World Nat Nat Nat Nat :=
  { trivWorld with
    getPowerState := fun _ => Except.ok ⟨1⟩
    getClaim := fun _ _ => Except.ok (some ⟨1⟩)
    agentIsMiner := fun _ => true }

/-- An engine state with one (miner) agent owning one account, so that no
miner-creation draw happens. -/
def simReward : Sim Nat Nat Nat Nat :=
  { config := ⟨1, 0, 0, 0⟩, accounts := [7], agents := [7], v := 0, rnd := 0,
    statsByMethod := 0 }

/-- `trivWorld` in which method `99` fails with exit code `1` and the
single agent submits one such message. -/
def failWorld : World Nat Nat Nat Nat :=
  { trivWorld with
    applyMessage := fun v _ _ _ meth _ =>
      (v, MsgRet.nilRet, if meth = 99 then 1 else 0)
    agentTick := fun _ _ =>
      Except.ok [{ From := 1, To := 2, Value := 0, Method := 99,
                   Params := MsgParams.other 0, ReturnHandler := none }] }

/-- The message produced by `failWorld`'s agent. -/
def failMsg : Msg :=
  { From := 1, To := 2, Value := 0, Method := 99, Params := MsgParams.other 0,
    ReturnHandler := none }

/-- Example multisig state used to witness C9. -/
def multisigEx : MultiSigActorState :=
  { InitialBalance := 1000, StartEpoch := 0, UnlockDuration := 100,
    AuthorizedParties := [], NumApprovalsThreshold := 0, NextTxnID := 0,
    PendingTxns := 0, PendingApprovals := 0 }

/-- An engine state with three funded accounts, no agents, and creation
probability `1` (the specification's miner-creation scenario). -/
def simThree : Sim Nat Nat Nat Nat :=
  { config := { accountCount := 3, accountInitialBalance := 1000, seed := 42, createMinerProbability := 1 }
    accounts := [5, 6, 7]
    agents := []
    v := 0
    rnd := 0
    statsByMethod := 0 }

lemma survivalOf_zero {α : Type} [LinearOrderedField α] (pmf : Nat → α) :
    survivalOf pmf 0 = 1 - pmf 0 := by
  simp [survivalOf]

lemma survivalOf_succ {α : Type} [LinearOrderedField α] (pmf : Nat → α) (k : Nat) :
    survivalOf pmf (k + 1) = survivalOf pmf k - pmf (k + 1) := by
  simp [survivalOf, Finset.sum_range_succ]
  ring

lemma winCountAux_spec {α : Type} [LinearOrderedField α] (pmf : Nat → α) (h : α) :
    ∀ (fuel winCount : Nat),
      (∃ k, winCount ≤ k ∧ k ≤ winCount + fuel ∧ survivalOf pmf k ≤ h) →
      (∀ j, j < winCount → h < survivalOf pmf j) →
      survivalOf pmf (winCountAux pmf h fuel winCount (survivalOf pmf winCount)) ≤ h ∧
        ∀ j, j < winCountAux pmf h fuel winCount (survivalOf pmf winCount) →
          h < survivalOf pmf j := by
  intro fuel
  induction fuel with
  | zero =>
    intro winCount hex hpast
    obtain ⟨k, hk1, hk2, hk3⟩ := hex
    have : k = winCount := by omega
    subst this
    exact ⟨by simpa [winCountAux] using hk3, by simpa [winCountAux] using hpast⟩
  | succ fuel ih =>
    intro winCount hex hpast
    by_cases hc : h < survivalOf pmf winCount
    · have hstep : winCountAux pmf h (fuel + 1) winCount (survivalOf pmf winCount)
          = winCountAux pmf h fuel (winCount + 1) (survivalOf pmf (winCount + 1)) := by
        rw [winCountAux, if_pos hc, survivalOf_succ]
      rw [hstep]
      apply ih
      · obtain ⟨k, hk1, hk2, hk3⟩ := hex
        refine ⟨k, ?_, by omega, hk3⟩
        rcases Nat.eq_or_lt_of_le hk1 with rfl | hlt
        · exact absurd hk3 (not_le.mpr hc)
        · omega
      · intro j hj
        rcases Nat.lt_succ_iff_lt_or_eq.mp hj with hj' | rfl
        · exact hpast j hj'
        · exact hc
    · have hstep : winCountAux pmf h (fuel + 1) winCount (survivalOf pmf winCount)
          = winCount := by
        rw [winCountAux, if_neg hc]
      rw [hstep]
      exact ⟨not_lt.mp hc, hpast⟩

/-- C2: for every `minerPower ≥ 0` and `totalPower > 0`, `Sim.WinCount`,
viewed as a function of the uniform draw `h`, returns the smallest
integer `k ≥ 0` whose Poisson survival probability `P(X > k)` (with rate
`λ = (minerPower/totalPower) * 5`, evaluated by successively subtracting
the masses `exp(-λ)λ^k/k!` starting from `1 - P(X = 0)`) is at most `h`,
provided the subtraction loop terminates within the supplied fuel. -/
theorem winCount_inverse_transform_sample (minerPower totalPower : Int)
    (hm : 0 ≤ minerPower) (ht : 0 < totalPower) (h : ℝ) (fuel : Nat)
    (hterm : ∃ k, k ≤ fuel ∧ poissonSurvival (lambdaOf minerPower totalPower) k ≤ h) :
    poissonSurvival (lambdaOf minerPower totalPower)
        (WinCount fuel (lambdaOf minerPower totalPower) h) ≤ h ∧
      ∀ j, j < WinCount fuel (lambdaOf minerPower totalPower) h →
        h < poissonSurvival (lambdaOf minerPower totalPower) j := by
  set lambda := lambdaOf minerPower totalPower with hl
  have hstart : (1 - poissonPMF lambda 0) = survivalOf (poissonPMF lambda) 0 := by
    rw [survivalOf_zero]
  have := winCountAux_spec (poissonPMF lambda) h fuel 0
    (by
      obtain ⟨k, hk1, hk2⟩ := hterm
      exact ⟨k, Nat.zero_le k, by omega, hk2⟩)
    (by intro j hj; omega)
  rw [WinCount, hstart]
  exact this

/-- Witness for C2 at `minerPower = 0`, `totalPower = 1`, `h = 0`,
`fuel = 0`: the rate is `0`, the survival probability at `0` is `0 ≤ 0`,
and the characterisation holds. -/
theorem winCount_inverse_transform_sample_witness :
    poissonSurvival (lambdaOf 0 1) (WinCount 0 (lambdaOf 0 1) 0) ≤ 0 ∧
      ∀ j, j < WinCount 0 (lambdaOf 0 1) 0 → (0 : ℝ) < poissonSurvival (lambdaOf 0 1) j :=
  winCount_inverse_transform_sample 0 1 (by decide) (by decide) 0 0
    ⟨0, Nat.le_refl 0, by
      simp [poissonSurvival, survivalOf, lambdaOf, poissonPMF, Real.exp_zero]⟩

/-- C8: for every `totalPower > 0` and every drawn `h ≥ 0` (in particular
every `h` in `[0,1)`), `Sim.WinCount` with `minerPower = 0` returns `0`:
the rate is `λ = 0`, the initial survival value `1 - P(X = 0)` is `0`,
so the loop body never executes. -/
theorem winCount_zero_power (totalPower : Int) (ht : 0 < totalPower)
    (h : ℝ) (hh : 0 ≤ h) (fuel : Nat) :
    WinCount fuel (lambdaOf 0 totalPower) h = 0 := by
  have hlam : lambdaOf 0 totalPower = 0 := by
    simp [lambdaOf]
  have hpmf0 : poissonPMF 0 0 = 1 := by
    simp [poissonPMF, Real.exp_zero]
  rw [WinCount, hlam, hpmf0]
  cases fuel with
  | zero => rfl
  | succ fuel =>
    rw [winCountAux, if_neg]
    simp only [sub_self]
    exact not_lt.mpr hh

/-- Witness for C8 at `totalPower = 1`, `h = 0`, `fuel = 3`. -/
theorem winCount_zero_power_witness : WinCount 3 (lambdaOf 0 1) 0 = 0 :=
  winCount_zero_power 1 (by decide) 0 (le_refl 0) 3

/-- C9: `AmountLocked` computes the locked proportion by integer division
of two epoch counts before scaling the balance, so with
`UnlockDuration ≥ 1` it truncates to zero for every
`1 ≤ elapsedEpoch < UnlockDuration`, returns the full `InitialBalance`
at `elapsedEpoch = 0` (for any valid signed 64-bit balance), and returns
`0` once `elapsedEpoch ≥ UnlockDuration`. -/
theorem amountLocked_integer_division (st : MultiSigActorState)
    (hd : 1 ≤ st.UnlockDuration)
    (hlo : -(2 ^ 63) ≤ st.InitialBalance) (hhi : st.InitialBalance < 2 ^ 63) :
    (∀ e : Int, 1 ≤ e → e < st.UnlockDuration → st.AmountLocked e = 0) ∧
      st.AmountLocked 0 = st.InitialBalance ∧
      (∀ e : Int, st.UnlockDuration ≤ e → st.AmountLocked e = 0) := by
  have h64 : (2 : Int) ^ 64 = 18446744073709551616 := by norm_num
  have h63 : (2 : Int) ^ 63 = 9223372036854775808 := by norm_num
  rw [h63] at hlo hhi
  refine ⟨?_, ?_, ?_⟩
  · intro e he1 he2
    unfold MultiSigActorState.AmountLocked
    rw [if_neg (by omega)]
    have hq : Int.tdiv (st.UnlockDuration - e) st.UnlockDuration = 0 := by
      rw [Int.tdiv_eq_ediv (by omega) (by omega)]
      exact Int.ediv_eq_zero_of_lt (by omega) (by omega)
    rw [hq]
    norm_num [toUInt64Z, toInt64Z]
  · unfold MultiSigActorState.AmountLocked
    rw [if_neg (by omega)]
    have hq : Int.tdiv (st.UnlockDuration - 0) st.UnlockDuration = 1 := by
      rw [sub_zero]
      exact Int.tdiv_self (by omega)
    have hone : (1 : Int) % 18446744073709551616 = 1 := by norm_num
    rw [hq]
    simp only [toUInt64Z, toInt64Z, h64, h63, hone, mul_one]
    split <;> omega
  · intro e he
    unfold MultiSigActorState.AmountLocked
    rw [if_pos he]

/-- Witness for C9 on a state with balance `1000` and unlock duration
`100`. -/
theorem amountLocked_integer_division_witness :
    (∀ e : Int, 1 ≤ e → e < multisigEx.UnlockDuration →
        multisigEx.AmountLocked e = 0) ∧
      multisigEx.AmountLocked 0 = multisigEx.InitialBalance ∧
      (∀ e : Int, multisigEx.UnlockDuration ≤ e →
        multisigEx.AmountLocked e = 0) :=
  amountLocked_integer_division multisigEx (by decide) (by decide) (by decide)

/-- C10: `_hasAvailable` returns `true` exactly when the spend is
non-negative, does not exceed the current balance, and leaves at least
the currently locked amount behind. -/
theorem hasAvailable_iff (st : MultiSigActorState)
    (currBalance amountToSpend : Int) (currEpoch : Int) :
    st.hasAvailable currBalance amountToSpend currEpoch = true ↔
      0 ≤ amountToSpend ∧ amountToSpend ≤ currBalance ∧
        st.AmountLocked (currEpoch - st.StartEpoch) ≤ currBalance - amountToSpend := by
  unfold MultiSigActorState.hasAvailable
  by_cases h1 : amountToSpend < 0 ∨ currBalance < amountToSpend
  · rw [if_pos h1]
    simp only [Bool.false_eq_true, false_iff]
    intro hcon
    obtain ⟨ha, hb, _⟩ := hcon
    rcases h1 with h | h <;> omega
  · rw [if_neg h1]
    push_neg at h1
    by_cases h2 : currBalance - amountToSpend < st.AmountLocked (currEpoch - st.StartEpoch)
    · rw [if_pos h2]
      simp only [Bool.false_eq_true, false_iff]
      intro hcon
      exact absurd hcon.2.2 (not_le.mpr h2)
    · rw [if_neg h2]
      simp only [true_iff]
      exact ⟨h1.1, h1.2, not_lt.mp h2⟩

lemma rewardMiner_mem (w : World V A R S) (v : V) (a : Addr) (wins : Nat)
    (e : TraceEntry) (he : e ∈ (rewardMiner w v a wins).2.1) :
    1 ≤ wins ∧ e = TraceEntry.mk Phase.reward (rewardMsgFor a wins) := by
  unfold rewardMiner at he
  by_cases hw : wins < 1
  · rw [if_pos hw] at he
    simp at he
  · rw [if_neg hw] at he
    by_cases hc : (applyMsgV w v (rewardMsgFor a wins)).2.2 = okCode
    · rw [if_pos hc] at he
      simp at he
      exact ⟨by omega, he⟩
    · rw [if_neg hc] at he
      simp at he
      exact ⟨by omega, he⟩

lemma rewardLoop_mem (w : World V A R S) :
    ∀ (mps : List MinerPowerTable) (totalQA : Int) (v : V) (r : R) (e : TraceEntry),
      e ∈ (rewardLoop w mps totalQA v r).2.2.1 →
      0 < totalQA ∧ ∃ mp, mp ∈ mps ∧ ∃ hq : Rat,
        1 ≤ w.winCountFn mp.qaPower totalQA hq ∧
        e = TraceEntry.mk Phase.reward
          (rewardMsgFor mp.addr (w.winCountFn mp.qaPower totalQA hq)) := by
  intro mps
  induction mps with
  | nil => intro totalQA v r e he; simp [rewardLoop] at he
  | cons mp rest ih =>
    intro totalQA v r e he
    rw [rewardLoop] at he
    by_cases htot : 0 < totalQA
    · rw [if_pos htot] at he
      rcases hrm : rewardMiner w v mp.addr
          (w.winCountFn mp.qaPower totalQA (w.float64 r).1) with ⟨v', tr, er⟩
      rw [hrm] at he
      cases er with
      | some err =>
        simp at he
        obtain ⟨hwins, heq⟩ := rewardMiner_mem w v mp.addr _ e (by rw [hrm]; exact he)
        exact ⟨htot, mp, List.mem_cons_self mp rest, (w.float64 r).1, hwins, heq⟩
      | none =>
        simp at he
        rcases he with he | he
        · obtain ⟨hwins, heq⟩ := rewardMiner_mem w v mp.addr _ e (by rw [hrm]; exact he)
          exact ⟨htot, mp, List.mem_cons_self mp rest, (w.float64 r).1, hwins, heq⟩
        · obtain ⟨h1, mp', hmp', hq, hwins, heq⟩ := ih totalQA v' (w.float64 r).2 e he
          exact ⟨htot, mp', List.mem_cons_of_mem mp hmp', hq, hwins, heq⟩
    · rw [if_neg htot] at he
      obtain ⟨h1, mp', hmp', hq, hwins, heq⟩ := ih totalQA v r e he
      exact ⟨h1, mp', List.mem_cons_of_mem mp hmp', hq, hwins, heq⟩

lemma applyLoop_phase (w : World V A R S) :
    ∀ (l : List Msg) (v : V) (ags : List A) (e : TraceEntry),
      e ∈ (applyLoop w l v ags).2.2.1 → e.phase = Phase.batch := by
  intro l
  induction l with
  | nil => intro v ags e he; simp [applyLoop] at he
  | cons m rest ih =>
    intro v ags e he
    by_cases hc : (applyMsgV w v m).2.2 = okCode
    · cases hm : m.ReturnHandler with
      | none =>
        rcases hal : applyLoop w rest (applyMsgV w v m).1 ags with ⟨v2, ags2, tr, er⟩
        rw [applyLoop, if_pos hc, hm] at he
        simp only [hal] at he
        simp at he
        rcases he with rfl | he
        · rfl
        · exact ih _ _ _ (by rw [hal]; exact he)
      | some hd =>
        cases hr : runHandler w hd (applyMsgV w v m).1 m (applyMsgV w v m).2.1 ags with
        | ok ags' =>
          rcases hal : applyLoop w rest (applyMsgV w v m).1 ags' with ⟨v2, ags2, tr, er⟩
          rw [applyLoop, if_pos hc, hm] at he
          simp only [hr, hal] at he
          simp at he
          rcases he with rfl | he
          · rfl
          · exact ih _ _ _ (by rw [hal]; exact he)
        | error er =>
          rw [applyLoop, if_pos hc, hm] at he
          simp only [hr] at he
          simp at he
          rw [he]
    · rw [applyLoop, if_neg hc] at he
      simp at he
      rw [he]

/-- C1: the engine is deterministic.  Ticking is a pure function of the
world's (deterministic) collaborator oracles and the engine state; two
runs of any length from engine states agreeing on configuration, account
list, agent list, ledger handle, generator state (i.e. seed) and stored
statistics produce identical per-tick applied-request traces, identical
final engine state and identical error outcome.  All randomness flows
through the single generator state threaded from `config.Seed` by
`NewSim` through the miner-creation draw, the shuffle draws and the
win-count draws. -/
theorem sim_run_deterministic (w : World V A R S) (n : Nat) (s1 s2 : Sim V A R S)
    (hcfg : s1.config = s2.config) (hacc : s1.accounts = s2.accounts)
    (hag : s1.agents = s2.agents) (hv : s1.v = s2.v) (hrnd : s1.rnd = s2.rnd)
    (hst : s1.statsByMethod = s2.statsByMethod) :
    runSim w n s1 = runSim w n s2 := by
  have hs : s1 = s2 := by
    cases s1
    cases s2
    simp_all
  rw [hs]

/-- Witness for C1: two runs of two ticks from the same fresh state over
the concrete world coincide. -/
theorem sim_run_deterministic_witness :
    runSim trivWorld 2 (NewSim trivWorld simEx.config)
      = runSim trivWorld 2 (NewSim trivWorld simEx.config) :=
  sim_run_deterministic trivWorld 2 _ _ rfl rfl rfl rfl rfl rfl

/-- C7: when an agent's `Tick` errors during request production (after a
successful power-table read), `Sim.Tick` returns that error at once: the
returned engine state is the input state unchanged (same ledger handle,
accounts, agents, statistics, no epoch advance) and no request at all was
applied (the trace is empty). -/
theorem tick_agent_error_aborts (w : World V A R S) (s : Sim V A R S)
    (pt : PowerTable) (e : Nat)
    (hpt : ComputePowerTable w s.v s.agents = Except.ok pt)
    (hcol : collectMessages w s.v s.agents = Except.error e) :
    Sim.Tick w s = (s, [], some (SimError.agentError e)) := by
  unfold Sim.Tick
  rw [hpt, hcol]

/-- Witness for C7: in `agentErrWorld` the single agent fails with code
`7` and the tick returns exactly that error on the unchanged state. -/
theorem tick_agent_error_aborts_witness :
    Sim.Tick agentErrWorld simOneAgent
      = (simOneAgent, [], some (SimError.agentError 7)) :=
  tick_agent_error_aborts agentErrWorld simOneAgent ⟨0, 0, []⟩ 7 rfl rfl

/-- C4: whenever `Sim.Tick` completes without error, the trace of applied
requests decomposes as the shuffled batch (all tagged `batch`), then the
reward distributions (all tagged `reward`), then the cron end-of-epoch
message as the very last applied request. -/
theorem tick_cron_last (w : World V A R S) (s s' : Sim V A R S)
    (tr : List TraceEntry)
    (ht : Sim.Tick w s = (s', tr, none)) :
    ∃ t1 t2, tr = t1 ++ t2 ++ [TraceEntry.mk Phase.cron cronMsg] ∧
      (∀ e ∈ t1, e.phase = Phase.batch) ∧
      (∀ e ∈ t2, e.phase = Phase.reward) := by
  unfold Sim.Tick at ht
  cases hpt : ComputePowerTable w s.v s.agents with
  | error e => rw [hpt] at ht; simp at ht
  | ok pt =>
    rw [hpt] at ht
    cases hcol : collectMessages w s.v s.agents with
    | error e => rw [hcol] at ht; simp at ht
    | ok agentMsgs =>
      rw [hcol] at ht
      simp only [] at ht
      unfold tickRun at ht
      rcases hal : applyLoop w
          (rndShuffle w.intn (addMinerMessage w s agentMsgs).1
            (addMinerMessage w s agentMsgs).2).1 s.v s.agents with ⟨v1, ags1, tr1, er1⟩
      rw [hal] at ht
      cases er1 with
      | some e => simp at ht
      | none =>
        simp only [] at ht
        rcases hrl : rewardLoop w pt.minerPower pt.totalQAPower v1
            (rndShuffle w.intn (addMinerMessage w s agentMsgs).1
              (addMinerMessage w s agentMsgs).2).2 with ⟨v2, rnd3, tr2, er2⟩
        rw [hrl] at ht
        cases er2 with
        | some e => simp at ht
        | none =>
          simp only [] at ht
          by_cases hcron : (applyMsgV w v2 cronMsg).2.2 = okCode
          · rw [if_pos hcron] at ht
            cases hep : w.withEpoch (applyMsgV w v2 cronMsg).1
                (w.getEpoch (applyMsgV w v2 cronMsg).1 + 1) with
            | ok v4 =>
              rw [hep] at ht
              simp only [Prod.mk.injEq] at ht
              refine ⟨tr1, tr2, ht.2.1.symm, ?_, ?_⟩
              · intro e he
                exact applyLoop_phase w _ s.v s.agents e (by rw [hal]; exact he)
              · intro e he
                obtain ⟨_, mp, hmp, hq, hw, heq⟩ :=
                  rewardLoop_mem w pt.minerPower pt.totalQAPower v1 _ e
                    (by rw [hrl]; exact he)
                rw [heq]
            | error e =>
              rw [hep] at ht
              simp at ht
          · rw [if_neg hcron] at ht
            simp at ht

lemma cons_set_perm {α : Type} :
    ∀ (t : List α) (k : Nat) (y a : α), t[k]? = some y →
      List.Perm (y :: t.set k a) (a :: t) := by
  intro t
  induction t with
  | nil => intro k y a hk; simp at hk
  | cons b s ih =>
    intro k y a hk
    cases k with
    | zero =>
      rw [List.getElem?_cons_zero] at hk
      injection hk with hk
      subst hk
      show List.Perm (b :: a :: s) (a :: b :: s)
      exact List.Perm.swap a b s
    | succ k =>
      rw [List.getElem?_cons_succ] at hk
      show List.Perm (y :: b :: s.set k a) (a :: b :: s)
      exact ((List.Perm.swap b y _).trans
        (List.Perm.cons b (ih k y a hk))).trans (List.Perm.swap a b s)

lemma set_set_perm {α : Type} :
    ∀ (l : List α) (i j : Nat) (x y : α), l[i]? = some x → l[j]? = some y →
      List.Perm ((l.set i y).set j x) l := by
  intro l
  induction l with
  | nil => intro i j x y hi hj; simp at hi
  | cons b t ih =>
    intro i j x y hi hj
    cases i with
    | zero =>
      rw [List.getElem?_cons_zero] at hi
      injection hi with hi
      subst hi
      cases j with
      | zero =>
        rw [List.getElem?_cons_zero] at hj
        injection hj with hj
        subst hj
        show List.Perm (b :: t) (b :: t)
        exact List.Perm.refl _
      | succ j =>
        rw [List.getElem?_cons_succ] at hj
        show List.Perm (y :: t.set j b) (b :: t)
        exact cons_set_perm t j y b hj
    | succ i =>
      rw [List.getElem?_cons_succ] at hi
      cases j with
      | zero =>
        rw [List.getElem?_cons_zero] at hj
        injection hj with hj
        subst hj
        show List.Perm (x :: t.set i b) (b :: t)
        exact cons_set_perm t i x b hi
      | succ j =>
        rw [List.getElem?_cons_succ] at hj
        show List.Perm (b :: (t.set i y).set j x) (b :: t)
        exact List.Perm.cons b (ih i j x y hi hj)

lemma swapList_perm {α : Type} (l : List α) (i j : Nat) :
    List.Perm (swapList l i j) l := by
  unfold swapList
  cases hi : l[i]? with
  | none => exact List.Perm.refl l
  | some x =>
    cases hj : l[j]? with
    | none => exact List.Perm.refl l
    | some y => exact set_set_perm l i j x y hi hj

lemma shuffleAux_perm {α : Type} (intn : R → Nat → Nat × R) :
    ∀ (n : Nat) (l : List α) (r : R), List.Perm (shuffleAux intn n l r).1 l := by
  intro n
  induction n with
  | zero => intro l r; exact List.Perm.refl l
  | succ i ih =>
    intro l r
    rw [shuffleAux]
    exact (ih _ _).trans (swapList_perm l (i + 1) _)

lemma rndShuffle_perm {α : Type} (intn : R → Nat → Nat × R) (l : List α) (r : R) :
    List.Perm (rndShuffle intn l r).1 l :=
  shuffleAux_perm intn (l.length - 1) l r

lemma runHandler_length (w : World V A R S) (hd : Handler) (v : V) (m : Msg)
    (ret : MsgRet) (ags ags' : List A)
    (h : runHandler w hd v m ret ags = Except.ok ags') :
    ags'.length ≤ ags.length + handlerDelta hd := by
  cases hd with
  | createMinerH cfg =>
    unfold runHandler at h
    cases ret with
    | createMinerRet idA robA =>
      cases hp : m.Params with
      | createMiner owner worker spt =>
        rw [hp] at h
        injection h with h
        subst h
        simp [handlerDelta]
      | awardBlockReward a b c d => rw [hp] at h; cases h
      | nilParams => rw [hp] at h; cases h
      | other d => rw [hp] at h; cases h
    | nilRet => cases h
    | otherRet d => cases h
  | external tag =>
    unfold runHandler at h
    simp only [] at h
    cases he : w.extHandler tag v m ret with
    | error e => rw [he] at h; cases h
    | ok u =>
      rw [he] at h
      injection h with h
      subst h
      simp [handlerDelta]

lemma applyLoop_agents_length (w : World V A R S) :
    ∀ (l : List Msg) (v : V) (ags : List A),
      ((applyLoop w l v ags).2.1).length ≤ ags.length + l.countP isCreateMinerMsg := by
  intro l
  induction l with
  | nil => intro v ags; simp [applyLoop]
  | cons m rest ih =>
    intro v ags
    by_cases hc : (applyMsgV w v m).2.2 = okCode
    · cases hm : m.ReturnHandler with
      | none =>
        rcases hal : applyLoop w rest (applyMsgV w v m).1 ags with ⟨v2, ags2, tr, er⟩
        rw [applyLoop, if_pos hc, hm]
        simp only [hal]
        have h1 := ih (applyMsgV w v m).1 ags
        rw [hal] at h1
        have hcp : List.countP isCreateMinerMsg rest ≤
            List.countP isCreateMinerMsg (m :: rest) := by
          rw [List.countP_cons]
          omega
        simp only [] at h1 ⊢
        omega
      | some hd =>
        cases hr : runHandler w hd (applyMsgV w v m).1 m (applyMsgV w v m).2.1 ags with
        | ok ags' =>
          rcases hal : applyLoop w rest (applyMsgV w v m).1 ags' with ⟨v2, ags2, tr, er⟩
          rw [applyLoop, if_pos hc, hm]
          simp only [hr, hal]
          have h1 := ih (applyMsgV w v m).1 ags'
          rw [hal] at h1
          have h2 := runHandler_length w hd (applyMsgV w v m).1 m (applyMsgV w v m).2.1 ags ags' hr
          cases hd with
          | createMinerH cfg =>
            have h3 : List.countP isCreateMinerMsg (m :: rest) =
                List.countP isCreateMinerMsg rest + 1 := by
              rw [List.countP_cons]
              simp [isCreateMinerMsg, hm]
            rw [h3]
            simp only [handlerDelta] at h2
            simp only [] at h1 ⊢
            omega
          | external tag =>
            have h3 : List.countP isCreateMinerMsg (m :: rest) =
                List.countP isCreateMinerMsg rest := by
              rw [List.countP_cons]
              simp [isCreateMinerMsg, hm]
            rw [h3]
            simp only [handlerDelta] at h2
            simp only [] at h1 ⊢
            omega
        | error er =>
          rw [applyLoop, if_pos hc, hm]
          simp only [hr]
          exact Nat.le_add_right _ _
    · rw [applyLoop, if_neg hc]
      simp only []
      exact Nat.le_add_right _ _

lemma collectMessages_countCM (w : World V A R S) (v : V) :
    ∀ (ags : List A) (msgs : List Msg), collectMessages w v ags = Except.ok msgs →
      msgs.countP isCreateMinerMsg = 0 := by
  intro ags
  induction ags with
  | nil =>
    intro msgs h
    rw [collectMessages] at h
    injection h with h
    subst h
    rfl
  | cons a rest ih =>
    intro msgs h
    rw [collectMessages] at h
    cases hat : w.agentTick a v with
    | error e => rw [hat] at h; cases h
    | ok ams =>
      rw [hat] at h
      simp only [] at h
      cases hcr : collectMessages w v rest with
      | error e => rw [hcr] at h; cases h
      | ok tail =>
        rw [hcr] at h
        simp only [] at h
        injection h with h
        subst h
        rw [List.countP_append]
        have h1 : (ams.map AgentMsg.toMsg).countP isCreateMinerMsg = 0 := by
          rw [List.countP_eq_zero]
          intro x hx
          obtain ⟨am, _, rfl⟩ := List.mem_map.mp hx
          unfold isCreateMinerMsg AgentMsg.toMsg
          cases am.ReturnHandler <;> simp
        rw [h1, ih tail hcr]

lemma computePTAgents_mem (w : World V A R S) (v : V) :
    ∀ (ags : List A) (mps : List MinerPowerTable),
      computePTAgents w v ags = Except.ok mps →
      ∀ mp ∈ mps, ∃ a, a ∈ ags ∧ w.agentIsMiner a = true ∧
        w.agentIdAddress a = mp.addr ∧
        ∃ cl, w.getClaim v (w.agentIdAddress a) = Except.ok (some cl) ∧
          w.minerNominalPowerMeetsConsensusMinimum v (w.agentIdAddress a)
            = Except.ok true ∧
          cl.qualityAdjPower = mp.qaPower := by
  intro ags
  induction ags with
  | nil =>
    intro mps h mp hmp
    rw [computePTAgents] at h
    injection h with h
    subst h
    simp at hmp
  | cons a rest ih =>
    intro mps h mp hmp
    rw [computePTAgents] at h
    by_cases hmin : w.agentIsMiner a
    · rw [if_pos hmin] at h
      cases hcl : w.getClaim v (w.agentIdAddress a) with
      | error e => rw [hcl] at h; cases h
      | ok oc =>
        rw [hcl] at h
        cases oc with
        | none =>
          simp only [] at h
          obtain ⟨a', ha', rest'⟩ := ih mps h mp hmp
          exact ⟨a', List.mem_cons_of_mem a ha', rest'⟩
        | some cl =>
          simp only [] at h
          cases hmm : w.minerNominalPowerMeetsConsensusMinimum v (w.agentIdAddress a) with
          | error e => rw [hmm] at h; cases h
          | ok b =>
            rw [hmm] at h
            cases b with
            | false =>
              simp only [] at h
              obtain ⟨a', ha', rest'⟩ := ih mps h mp hmp
              exact ⟨a', List.mem_cons_of_mem a ha', rest'⟩
            | true =>
              simp only [] at h
              cases hrest : computePTAgents w v rest with
              | error e => rw [hrest] at h; cases h
              | ok tail =>
                rw [hrest] at h
                simp only [] at h
                injection h with h
                subst h
                rcases List.mem_cons.mp hmp with rfl | hmp'
                · exact ⟨a, List.mem_cons_self a rest, hmin, rfl, cl, hcl, hmm, rfl⟩
                · obtain ⟨a', ha', rest'⟩ := ih tail hrest mp hmp'
                  exact ⟨a', List.mem_cons_of_mem a ha', rest'⟩
    · rw [if_neg hmin] at h
      obtain ⟨a', ha', rest'⟩ := ih mps h mp hmp
      exact ⟨a', List.mem_cons_of_mem a ha', rest'⟩

lemma computePowerTable_ok (w : World V A R S) (v : V) (agents : List A)
    (pt : PowerTable) (h : ComputePowerTable w v agents = Except.ok pt) :
    computePTAgents w v agents = Except.ok pt.minerPower := by
  unfold ComputePowerTable at h
  cases hrw : w.getRewardState v with
  | error e => rw [hrw] at h; cases h
  | ok rwst =>
    rw [hrw] at h
    simp only [] at h
    cases hps : w.getPowerState v with
    | error e => rw [hps] at h; cases h
    | ok st =>
      rw [hps] at h
      simp only [] at h
      cases hca : computePTAgents w v agents with
      | error e => rw [hca] at h; cases h
      | ok mps =>
        rw [hca] at h
        simp only [] at h
        injection h with h
        rw [← h]

/-- C3: every reward-distribution request applied in a tick belongs to a
producer of the pre-tick power-table snapshot — i.e. a miner agent whose
power claim existed in the pre-tick ledger state and whose nominal power
met the consensus minimum — the snapshot's total quality-adjusted power
is strictly positive, and the request carries a drawn win count of at
least `1`; producers failing any of these conditions get no reward
request in the tick. -/
theorem tick_reward_requires_eligibility (w : World V A R S) (s s' : Sim V A R S)
    (tr : List TraceEntry) (er : Option SimError) (pt : PowerTable)
    (hpt : ComputePowerTable w s.v s.agents = Except.ok pt)
    (ht : Sim.Tick w s = (s', tr, er))
    (m : Msg) (hm : TraceEntry.mk Phase.reward m ∈ tr) :
    0 < pt.totalQAPower ∧
      ∃ mp, mp ∈ pt.minerPower ∧
        (∃ a, a ∈ s.agents ∧ w.agentIsMiner a = true ∧
          w.agentIdAddress a = mp.addr ∧
          ∃ cl, w.getClaim s.v (w.agentIdAddress a) = Except.ok (some cl) ∧
            w.minerNominalPowerMeetsConsensusMinimum s.v (w.agentIdAddress a)
              = Except.ok true ∧
            cl.qualityAdjPower = mp.qaPower) ∧
        ∃ hq : Rat, 1 ≤ w.winCountFn mp.qaPower pt.totalQAPower hq ∧
          m = rewardMsgFor mp.addr (w.winCountFn mp.qaPower pt.totalQAPower hq) := by
  have hfromLoop : ∀ (v1 : V) (r1 : R),
      TraceEntry.mk Phase.reward m ∈
        (rewardLoop w pt.minerPower pt.totalQAPower v1 r1).2.2.1 →
      0 < pt.totalQAPower ∧
        ∃ mp, mp ∈ pt.minerPower ∧
          (∃ a, a ∈ s.agents ∧ w.agentIsMiner a = true ∧
            w.agentIdAddress a = mp.addr ∧
            ∃ cl, w.getClaim s.v (w.agentIdAddress a) = Except.ok (some cl) ∧
              w.minerNominalPowerMeetsConsensusMinimum s.v (w.agentIdAddress a)
                = Except.ok true ∧
              cl.qualityAdjPower = mp.qaPower) ∧
          ∃ hq : Rat, 1 ≤ w.winCountFn mp.qaPower pt.totalQAPower hq ∧
            m = rewardMsgFor mp.addr (w.winCountFn mp.qaPower pt.totalQAPower hq) := by
    intro v1 r1 hmem
    obtain ⟨htot, mp, hmp, hq, hwins, heq⟩ :=
      rewardLoop_mem w pt.minerPower pt.totalQAPower v1 r1 _ hmem
    have heq' : m = rewardMsgFor mp.addr (w.winCountFn mp.qaPower pt.totalQAPower hq) := by
      injection heq with h1 h2
    obtain ⟨a, ha, hisM, haddr, cl, hcl, hmm, hqa⟩ :=
      computePTAgents_mem w s.v s.agents pt.minerPower
        (computePowerTable_ok w s.v s.agents pt hpt) mp hmp
    exact ⟨htot, mp, hmp, ⟨a, ha, hisM, haddr, cl, hcl, hmm, hqa⟩, hq, hwins, heq'⟩
  have hbatchNo : ∀ (l : List Msg) (v0 : V) (ags0 : List A),
      TraceEntry.mk Phase.reward m ∈ (applyLoop w l v0 ags0).2.2.1 → False := by
    intro l v0 ags0 hmem
    have := applyLoop_phase w l v0 ags0 _ hmem
    simp at this
  unfold Sim.Tick at ht
  rw [hpt] at ht
  simp only [] at ht
  cases hcol : collectMessages w s.v s.agents with
  | error e =>
    rw [hcol] at ht
    simp only [Prod.mk.injEq] at ht
    rw [← ht.2.1] at hm
    simp at hm
  | ok agentMsgs =>
    rw [hcol] at ht
    simp only [] at ht
    unfold tickRun at ht
    rcases hal : applyLoop w
        (rndShuffle w.intn (addMinerMessage w s agentMsgs).1
          (addMinerMessage w s agentMsgs).2).1 s.v s.agents with ⟨v1, ags1, tr1, er1⟩
    rw [hal] at ht
    cases er1 with
    | some e =>
      simp only [Prod.mk.injEq] at ht
      rw [← ht.2.1] at hm
      exact absurd hm (fun hmem => hbatchNo _ _ _ (by rw [hal]; exact hmem))
    | none =>
      simp only [] at ht
      rcases hrl : rewardLoop w pt.minerPower pt.totalQAPower v1
          (rndShuffle w.intn (addMinerMessage w s agentMsgs).1
            (addMinerMessage w s agentMsgs).2).2 with ⟨v2, rnd3, tr2, er2⟩
      rw [hrl] at ht
      cases er2 with
      | some e =>
        simp only [Prod.mk.injEq] at ht
        rw [← ht.2.1] at hm
        rcases List.mem_append.mp hm with hmem | hmem
        · exact absurd hmem (fun hmem => hbatchNo _ _ _ (by rw [hal]; exact hmem))
        · exact hfromLoop v1 _ (by rw [hrl]; exact hmem)
      | none =>
        simp only [] at ht
        by_cases hcron : (applyMsgV w v2 cronMsg).2.2 = okCode
        · rw [if_pos hcron] at ht
          cases hep : w.withEpoch (applyMsgV w v2 cronMsg).1
              (w.getEpoch (applyMsgV w v2 cronMsg).1 + 1) with
          | ok v4 =>
            rw [hep] at ht
            simp only [Prod.mk.injEq] at ht
            rw [← ht.2.1] at hm
            rcases List.mem_append.mp hm with hmem | hmem
            · rcases List.mem_append.mp hmem with hmem' | hmem'
              · exact absurd hmem' (fun hmem' => hbatchNo _ _ _ (by rw [hal]; exact hmem'))
              · exact hfromLoop v1 _ (by rw [hrl]; exact hmem')
            · simp at hmem
          | error e =>
            rw [hep] at ht
            simp only [Prod.mk.injEq] at ht
            rw [← ht.2.1] at hm
            rcases List.mem_append.mp hm with hmem | hmem
            · rcases List.mem_append.mp hmem with hmem' | hmem'
              · exact absurd hmem' (fun hmem' => hbatchNo _ _ _ (by rw [hal]; exact hmem'))
              · exact hfromLoop v1 _ (by rw [hrl]; exact hmem')
            · simp at hmem
        · rw [if_neg hcron] at ht
          simp only [Prod.mk.injEq] at ht
          rw [← ht.2.1] at hm
          rcases List.mem_append.mp hm with hmem | hmem
          · rcases List.mem_append.mp hmem with hmem' | hmem'
            · exact absurd hmem' (fun hmem' => hbatchNo _ _ _ (by rw [hal]; exact hmem'))
            · exact hfromLoop v1 _ (by rw [hrl]; exact hmem')
          · simp at hmem

/-- Witness for C4: on the concrete world the successful tick's trace is
exactly the cron message. -/
theorem tick_cron_last_witness :
    ∃ t1 t2, [TraceEntry.mk Phase.cron cronMsg]
        = t1 ++ t2 ++ [TraceEntry.mk Phase.cron cronMsg] ∧
      (∀ e ∈ t1, e.phase = Phase.batch) ∧
      (∀ e ∈ t2, e.phase = Phase.reward) :=
  tick_cron_last trivWorld simEx simEx [TraceEntry.mk Phase.cron cronMsg] rfl

/-- Witness for C3: in `rewardWorld` the tick applies one reward request,
for the snapshot's single eligible miner `7` with win count `1` and total
power `1`. -/
theorem tick_reward_requires_eligibility_witness :
    0 < (PowerTable.mk 0 1 [MinerPowerTable.mk 7 1]).totalQAPower ∧
      ∃ mp, mp ∈ (PowerTable.mk 0 1 [MinerPowerTable.mk 7 1]).minerPower ∧
        (∃ a, a ∈ simReward.agents ∧ rewardWorld.agentIsMiner a = true ∧
          rewardWorld.agentIdAddress a = mp.addr ∧
          ∃ cl, rewardWorld.getClaim simReward.v (rewardWorld.agentIdAddress a)
              = Except.ok (some cl) ∧
            rewardWorld.minerNominalPowerMeetsConsensusMinimum simReward.v
              (rewardWorld.agentIdAddress a) = Except.ok true ∧
            cl.qualityAdjPower = mp.qaPower) ∧
        ∃ hq : Rat,
          1 ≤ rewardWorld.winCountFn mp.qaPower
            (PowerTable.mk 0 1 [MinerPowerTable.mk 7 1]).totalQAPower hq ∧
          rewardMsgFor 7 1 = rewardMsgFor mp.addr
            (rewardWorld.winCountFn mp.qaPower
              (PowerTable.mk 0 1 [MinerPowerTable.mk 7 1]).totalQAPower hq) :=
  tick_reward_requires_eligibility rewardWorld simReward
    { simReward with rnd := 1 }
    [TraceEntry.mk Phase.reward (rewardMsgFor 7 1), TraceEntry.mk Phase.cron cronMsg]
    none (PowerTable.mk 0 1 [MinerPowerTable.mk 7 1]) rfl rfl
    (rewardMsgFor 7 1) (List.Mem.head _)

lemma applyLoop_append (w : World V A R S) :
    ∀ (pre rest : List Msg) (v : V) (ags : List A), batchOk w v ags pre = true →
      applyLoop w (pre ++ rest) v ags =
        ((applyLoop w rest (execBatch w v ags pre).1 (execBatch w v ags pre).2).1,
          (applyLoop w rest (execBatch w v ags pre).1 (execBatch w v ags pre).2).2.1,
          pre.map (fun x => TraceEntry.mk Phase.batch x) ++
            (applyLoop w rest (execBatch w v ags pre).1 (execBatch w v ags pre).2).2.2.1,
          (applyLoop w rest (execBatch w v ags pre).1 (execBatch w v ags pre).2).2.2.2) := by
  intro pre
  induction pre with
  | nil =>
    intro rest v ags hok
    simp [execBatch]
  | cons m pre' ih =>
    intro rest v ags hok
    rw [batchOk] at hok
    by_cases hc : (applyMsgV w v m).2.2 = okCode
    · rw [if_pos hc] at hok
      cases hm : m.ReturnHandler with
      | none =>
        rw [hm] at hok
        have hok' : batchOk w (applyMsgV w v m).1 ags pre' = true := hok
        have hexec : execBatch w v ags (m :: pre')
            = execBatch w (applyMsgV w v m).1 ags pre' := by
          rw [execBatch, if_pos hc, hm]
        show applyLoop w (m :: (pre' ++ rest)) v ags = _
        rw [applyLoop, if_pos hc, hm, ih rest (applyMsgV w v m).1 ags hok', hexec]
        simp
      | some hd =>
        rw [hm] at hok
        simp only [] at hok
        cases hr : runHandler w hd (applyMsgV w v m).1 m (applyMsgV w v m).2.1 ags with
        | error er => rw [hr] at hok; simp at hok
        | ok ags' =>
          rw [hr] at hok
          have hok' : batchOk w (applyMsgV w v m).1 ags' pre' = true := hok
          have hexec : execBatch w v ags (m :: pre')
              = execBatch w (applyMsgV w v m).1 ags' pre' := by
            rw [execBatch, if_pos hc, hm]
            simp only [hr]
          show applyLoop w (m :: (pre' ++ rest)) v ags = _
          rw [applyLoop, if_pos hc, hm]
          simp only [hr]
          rw [ih rest (applyMsgV w v m).1 ags' hok', hexec]
          simp
    · rw [if_neg hc] at hok
      simp at hok

/-- C5: `Sim.Tick` applies the shuffled batch strictly in shuffled order;
at the first request whose exit code is not `Ok` it aborts with an
execution error carrying the code, the failing request and the ledger
log, and (given the ledger's rollback of failed applications) the ledger
state reflects exactly the requests preceding the failing one — neither
the failing request nor any later one is applied. -/
theorem tick_aborts_on_first_failure (w : World V A R S) (s : Sim V A R S)
    (pt : PowerTable) (agentMsgs : List Msg) (pre : List Msg) (m : Msg)
    (post : List Msg)
    (hrollback : ∀ (v : V) (f t : Addr) (val : Int) (meth : Nat) (p : MsgParams),
      (w.applyMessage v f t val meth p).2.2 ≠ okCode →
        (w.applyMessage v f t val meth p).1 = v)
    (hpt : ComputePowerTable w s.v s.agents = Except.ok pt)
    (hcol : collectMessages w s.v s.agents = Except.ok agentMsgs)
    (hshuf : (rndShuffle w.intn (addMinerMessage w s agentMsgs).1
        (addMinerMessage w s agentMsgs).2).1 = pre ++ m :: post)
    (hpre : batchOk w s.v s.agents pre = true)
    (hfail : (applyMsgV w (execBatch w s.v s.agents pre).1 m).2.2 ≠ okCode) :
    Sim.Tick w s =
      ({ s with
          v := (execBatch w s.v s.agents pre).1
          agents := (execBatch w s.v s.agents pre).2
          rnd := (rndShuffle w.intn (addMinerMessage w s agentMsgs).1
            (addMinerMessage w s agentMsgs).2).2 },
        (pre ++ [m]).map (fun x => TraceEntry.mk Phase.batch x),
        some (SimError.execError
          (applyMsgV w (execBatch w s.v s.agents pre).1 m).2.2 m
          (w.getLogs (execBatch w s.v s.agents pre).1))) := by
  have hv1 : (applyMsgV w (execBatch w s.v s.agents pre).1 m).1
      = (execBatch w s.v s.agents pre).1 :=
    hrollback _ m.From m.To m.Value m.Method m.Params hfail
  have happ : applyLoop w (m :: post) (execBatch w s.v s.agents pre).1
      (execBatch w s.v s.agents pre).2
      = ((execBatch w s.v s.agents pre).1, (execBatch w s.v s.agents pre).2,
          [TraceEntry.mk Phase.batch m],
          some (SimError.execError
            (applyMsgV w (execBatch w s.v s.agents pre).1 m).2.2 m
            (w.getLogs (execBatch w s.v s.agents pre).1))) := by
    rw [applyLoop, if_neg hfail, hv1]
  unfold Sim.Tick
  rw [hpt]
  simp only []
  rw [hcol]
  simp only []
  unfold tickRun
  rw [hshuf, applyLoop_append w pre (m :: post) s.v s.agents hpre, happ]
  simp [List.map_append]

/-- Witness for C5: in `failWorld` the single-message batch fails with
exit code `1`; the tick aborts with the execution error for that message
and the ledger reflects no application. -/
theorem tick_aborts_on_first_failure_witness :
    Sim.Tick failWorld simOneAgent =
      ({ simOneAgent with
          v := (execBatch failWorld simOneAgent.v simOneAgent.agents []).1
          agents := (execBatch failWorld simOneAgent.v simOneAgent.agents []).2
          rnd := (rndShuffle failWorld.intn
            (addMinerMessage failWorld simOneAgent [failMsg]).1
            (addMinerMessage failWorld simOneAgent [failMsg]).2).2 },
        ([] ++ [failMsg]).map (fun x => TraceEntry.mk Phase.batch x),
        some (SimError.execError
          (applyMsgV failWorld
            (execBatch failWorld simOneAgent.v simOneAgent.agents []).1 failMsg).2.2
          failMsg
          (failWorld.getLogs
            (execBatch failWorld simOneAgent.v simOneAgent.agents []).1))) :=
  tick_aborts_on_first_failure failWorld simOneAgent
    (PowerTable.mk 0 0 []) [failMsg] [] failMsg []
    (fun _ _ _ _ _ _ _ => rfl) rfl rfl rfl rfl (by decide)

lemma tick_accounts (w : World V A R S) (s : Sim V A R S) :
    (Sim.Tick w s).1.accounts = s.accounts := by
  unfold Sim.Tick
  cases ComputePowerTable w s.v s.agents with
  | error e => rfl
  | ok pt =>
    cases collectMessages w s.v s.agents with
    | error e => rfl
    | ok agentMsgs =>
      simp only []
      unfold tickRun
      split
      · rfl
      · split
        · rfl
        · split
          · split
            · rfl
            · rfl
          · rfl

lemma tick_agents_length (w : World V A R S) (s : Sim V A R S) :
    (Sim.Tick w s).1.agents.length ≤ s.agents.length + 1 := by
  unfold Sim.Tick
  cases hpt : ComputePowerTable w s.v s.agents with
  | error e => simp
  | ok pt =>
    cases hcol : collectMessages w s.v s.agents with
    | error e => simp
    | ok agentMsgs =>
      simp only []
      have hshufcount : ((rndShuffle w.intn (addMinerMessage w s agentMsgs).1
          (addMinerMessage w s agentMsgs).2).1).countP isCreateMinerMsg ≤ 1 := by
        rw [List.Perm.countP_eq isCreateMinerMsg
          (rndShuffle_perm w.intn (addMinerMessage w s agentMsgs).1
            (addMinerMessage w s agentMsgs).2)]
        have ha : agentMsgs.countP isCreateMinerMsg = 0 :=
          collectMessages_countCM w s.v s.agents agentMsgs hcol
        unfold addMinerMessage
        by_cases h1 : s.agents.length < s.accounts.length
        · rw [if_pos h1]
          by_cases h2 : (w.float32 s.rnd).1 < s.config.createMinerProbability
          · rw [if_pos h2]
            simp only []
            rw [List.countP_append, ha]
            simp [isCreateMinerMsg, Sim.createMiner]
          · rw [if_neg h2]
            simp [ha]
        · rw [if_neg h1]
          simp [ha]
      have hlen := applyLoop_agents_length w
        ((rndShuffle w.intn (addMinerMessage w s agentMsgs).1
          (addMinerMessage w s agentMsgs).2).1) s.v s.agents
      unfold tickRun
      rcases hal : applyLoop w
          (rndShuffle w.intn (addMinerMessage w s agentMsgs).1
            (addMinerMessage w s agentMsgs).2).1 s.v s.agents with ⟨v1, ags1, tr1, er1⟩
      rw [hal] at hlen
      simp only [] at hlen
      have hfin : ags1.length ≤ s.agents.length + 1 := by omega
      cases er1 with
      | some e =>
        simp only []
        exact hfin
      | none =>
        simp only []
        rcases hrl : rewardLoop w pt.minerPower pt.totalQAPower v1
            (rndShuffle w.intn (addMinerMessage w s agentMsgs).1
              (addMinerMessage w s agentMsgs).2).2 with ⟨v2, rnd3, tr2, er2⟩
        cases er2 with
        | some e =>
          simp only []
          exact hfin
        | none =>
          simp only []
          split
          · split
            · exact hfin
            · exact hfin
          · exact hfin

/-- C6: in each tick, exactly when the agent-set size is strictly below
the account-set size, one uniform `Float32` is drawn (the generator
advances by one draw), and exactly when that draw is below the configured
creation probability a single create-miner request is appended to the
batch, targeting the account at index `len(Agents)` and carrying the
configured account initial balance (that account's entire funding) as its
value; when the agent set is not smaller, no draw happens and the batch
is unchanged.  Hence at most one producer agent joins per tick, and the
account set is never modified by a tick. -/
theorem tick_miner_creation (w : World V A R S) (s : Sim V A R S)
    (agentMsgs : List Msg) :
    (s.agents.length < s.accounts.length →
      addMinerMessage w s agentMsgs =
        (if (w.float32 s.rnd).1 < s.config.createMinerProbability then
          agentMsgs ++ [{
            From := s.accounts.getD s.agents.length 0
            To := storagePowerActorAddr
            Value := s.config.accountInitialBalance
            Method := createMinerMethod
            Params := MsgParams.createMiner (s.accounts.getD s.agents.length 0)
              (s.accounts.getD s.agents.length 0) stackedDrg32GiBV1_1
            ReturnHandler := some (Handler.createMinerH
              { precommitRate := 5 / 2, proofType := stackedDrg32GiBV1_1,
                startingBalance := s.config.accountInitialBalance }) }]
        else agentMsgs, (w.float32 s.rnd).2)) ∧
    (¬ s.agents.length < s.accounts.length →
      addMinerMessage w s agentMsgs = (agentMsgs, s.rnd)) ∧
    (Sim.Tick w s).1.accounts = s.accounts ∧
    (Sim.Tick w s).1.agents.length ≤ s.agents.length + 1 := by
  refine ⟨?_, ?_, tick_accounts w s, tick_agents_length w s⟩
  · intro h1
    unfold addMinerMessage
    rw [if_pos h1]
    by_cases h2 : (w.float32 s.rnd).1 < s.config.createMinerProbability
    · rw [if_pos h2, if_pos h2]
      rfl
    · rw [if_neg h2, if_neg h2]
  · intro h1
    unfold addMinerMessage
    rw [if_neg h1]

/-- Witness for C6 on a concrete state with three accounts, no agents and
creation probability `1`. -/
theorem tick_miner_creation_witness :
    (simThree.agents.length < simThree.accounts.length →
      addMinerMessage trivWorld simThree [] =
        (if (trivWorld.float32 simThree.rnd).1 < simThree.config.createMinerProbability then
          [] ++ [{
            From := simThree.accounts.getD simThree.agents.length 0
            To := storagePowerActorAddr
            Value := simThree.config.accountInitialBalance
            Method := createMinerMethod
            Params := MsgParams.createMiner
              (simThree.accounts.getD simThree.agents.length 0)
              (simThree.accounts.getD simThree.agents.length 0) stackedDrg32GiBV1_1
            ReturnHandler := some (Handler.createMinerH
              { precommitRate := 5 / 2, proofType := stackedDrg32GiBV1_1,
                startingBalance := simThree.config.accountInitialBalance }) }]
        else [], (trivWorld.float32 simThree.rnd).2)) ∧
    (¬ simThree.agents.length < simThree.accounts.length →
      addMinerMessage trivWorld simThree [] = ([], simThree.rnd)) ∧
    (Sim.Tick trivWorld simThree).1.accounts = simThree.accounts ∧
    (Sim.Tick trivWorld simThree).1.agents.length ≤ simThree.agents.length + 1 :=
  tick_miner_creation trivWorld simThree []
